import Mathlib

/-!
Verification development for the resume-tailoring pipeline:
the client-side ATS keyword extractor and scorer (src/app/page.tsx),
the JSON-coercion stage, the resume normalizer and the text clamp of the
tailor route (src/app/api/tailor/route.ts), and the ATS plain-text
formatter (src/lib/resumeFormat.ts).

Strings are modelled as `List Char` (one entry per code point).  JavaScript
string baggage that the pipeline relies on is modelled explicitly:
`jsTrim` / `isJsWs` for `String.prototype.trim` and the regex class
for whitespace, `jsToString` for the `String(...)` coercion, and a fueled
recursive-descent JSON parser for `JSON.parse`.
-/

/-- Characters matched by the JavaScript whitespace class (the set trimmed by
`String.prototype.trim` and matched by the regex whitespace escape):
ASCII whitespace, NBSP, BOM and the Unicode space separators. -/
def isJsWs (c : Char) : Bool :=
  c = ' ' || c = '\t' || c = '\n' || c = '\x0b' || c = '\x0c' || c = '\r' ||
  c = ' ' || c = ' ' || (' ' ≤ c && c ≤ ' ') ||
  c = ' ' || c = ' ' || c = ' ' || c = ' ' ||
  c = '　' || c = '﻿'

/-- Removal of the trailing run of JS whitespace. -/
def trimEnd (l : List Char) : List Char :=
  (l.reverse.dropWhile isJsWs).reverse

/-- Model of `String.prototype.trim`: drop the leading and the trailing run of
JS whitespace. -/
def jsTrim (l : List Char) : List Char :=
  trimEnd (l.dropWhile isJsWs)

/-- Model of `clamp` in src/app/api/tailor/route.ts: remove NUL characters,
trim, and cut at `MAX_CHARS = 35000` characters. -/
def clamp (s : List Char) : List Char :=
  let cleaned := jsTrim (s.filter (fun c => c ≠ '\x00'))
  if 35000 < cleaned.length then cleaned.take 35000 else cleaned

/-!
Keyword extractor / matcher (src/app/page.tsx).
-/

/-- The `STOPWORDS` set of src/app/page.tsx. -/
def STOPWORDS : List (List Char) :=
  [("a").data, ("an").data, ("and").data, ("are").data, ("as").data,
   ("at").data, ("be").data, ("but").data, ("by").data, ("for").data,
   ("from").data, ("has").data, ("have").data, ("had").data,
   ("he").data, ("she").data, ("they").data, ("them").data, ("their").data,
   ("the").data, ("to").data, ("of").data, ("on").data, ("or").data,
   ("in").data, ("is").data, ("it").data, ("its").data,
   ("this").data, ("that").data, ("these").data, ("those").data,
   ("with").data, ("will").data, ("would").data, ("can").data,
   ("could").data, ("should").data, ("may").data,
   ("we").data, ("our").data, ("you").data, ("your").data, ("i").data,
   ("me").data, ("my").data, ("us").data, ("than").data, ("then").data,
   ("into").data, ("over").data, ("under").data,
   ("within").data, ("across").data, ("per").data, ("using").data,
   ("use").data, ("used").data, ("work").data, ("works").data,
   ("working").data, ("role").data,
   ("responsibilities").data, ("requirements").data, ("preferred").data,
   ("years").data, ("year").data, ("experience").data,
   ("strong").data, ("excellent").data, ("ability").data, ("skills").data,
   ("team").data, ("teams").data, ("including").data, ("plus").data]

/-- First character class of the token regex: a lower-case ASCII letter or an
ASCII digit (the job text was lower-cased before tokenizing). -/
def isTokStart (c : Char) : Bool :=
  ('a' ≤ c && c ≤ 'z') || ('0' ≤ c && c ≤ '9')

/-- Continuation class of the token regex: the start class plus the internal
punctuation allowed inside tech tokens. -/
def isTokCont (c : Char) : Bool :=
  isTokStart c || c = '+' || c = '#' || c = '.' || c = '-' || c = '/'

/-- Pre-tokenization normalization of the job text: the curly apostrophe is
replaced by the straight one and the text is lower-cased (ASCII case map; the
JS `toLowerCase` agrees with it on the characters the token classes accept). -/
def normalizeJobText (l : List Char) : List Char :=
  l.map (fun c => if c = '’' then '\'' else c.toLower)

/-- Emission of a finished candidate token: the regex needs a start character
followed by at least one continuation character, so only runs of length at
least two are tokens. -/
def emitTok (t : List Char) : List (List Char) :=
  if 2 ≤ t.length then [t] else []

/-- Left-to-right scan equivalent to the global token regex match: a token
starts at the first start-class character and extends over the maximal run of
continuation characters.  In the fourth case the breaking character cannot be
in the start class (the start class is contained in the continuation class),
so scanning may resume directly after it. -/
def tokGo : Option (List Char) → List Char → List (List Char)
  | none, [] => []
  | some t, [] => emitTok t
  | none, c :: rest =>
      if isTokStart c then tokGo (some [c]) rest else tokGo none rest
  | some t, c :: rest =>
      if isTokCont c then tokGo (some (t ++ [c])) rest
      else emitTok t ++ tokGo none rest

/-- All regex tokens of the normalized job text, in order. -/
def jobTokens (raw : List Char) : List (List Char) :=
  tokGo none raw

/-- Characters stripped from the edges of a raw token. -/
def isStripChar (c : Char) : Bool :=
  c = '.' || c = '-' || c = '/'

/-- Removal of the leading and the trailing run of `. - /` characters from a
token. -/
def stripEdges (t : List Char) : List Char :=
  ((t.dropWhile isStripChar).reverse.dropWhile isStripChar).reverse

/-- The short-token allowlist. -/
def shortAllow : List (List Char) :=
  [("c").data, ("r").data, ("go").data, ("js").data, ("ts").data]

/-- Canonical synonym normalization applied to an accepted token. -/
def synonym (t : List Char) : List Char :=
  if t = ("typescript").data then ("ts").data
  else if t = ("javascript").data then ("js").data
  else if t = ("node").data then ("node.js").data
  else t

/-- Model of `freq.set(k, (freq.get(k) ?? 0) + 1)` over an insertion-ordered
association list (a JS `Map` iterates keys in insertion order, and updating an
existing key keeps its position). -/
def bump (m : List (List Char × Nat)) (k : List Char) : List (List Char × Nat) :=
  match m with
  | [] => [(k, 1)]
  | (k', n) :: rest => if k' = k then (k', n + 1) :: rest else (k', n) :: bump rest k

/-- Rejection-and-counting chain of the token loop of `extractJobKeywords`
on an edge-stripped token: reject digit-bearing tokens, short tokens outside
the allowlist and stopwords, normalize synonyms, and count. -/
def acceptTok (freq : List (List Char × Nat)) (t : List Char) : List (List Char × Nat) :=
  if t.any (fun c => '0' ≤ c && c ≤ '9') then freq
  else if t.length < 3 && !(shortAllow.contains t) then freq
  else if STOPWORDS.contains t then freq
  else bump freq (synonym t)

/-- One iteration over a raw token: strip the edges, then the rejection and
counting chain above. -/
def processTok (freq : List (List Char × Nat)) (tok : List Char) : List (List Char × Nat) :=
  acceptTok freq (stripEdges tok)

/-- Stable insertion (after every strictly larger count, before equal ones) used
to model the stable JS `sort((a, b) => b[1] - a[1])`. -/
def insertDesc (x : List Char × Nat) : List (List Char × Nat) → List (List Char × Nat)
  | [] => [x]
  | y :: ys => if x.2 < y.2 then y :: insertDesc x ys else x :: y :: ys

/-- Stable sort by descending count.  `Array.prototype.sort` is stable and the
comparator orders by descending count, so any stable descending-by-count sort
(insertion sort here) produces the same list. -/
def sortDesc : List (List Char × Nat) → List (List Char × Nat)
  | [] => []
  | x :: xs => insertDesc x (sortDesc xs)

/-- The insertion-ordered (token, frequency) list built by the token loop. -/
def keywordFreq (jobText : List Char) : List (List Char × Nat) :=
  (jobTokens (normalizeJobText jobText)).foldl processTok []

/-- Model of `extractJobKeywords` of src/app/page.tsx. -/
def extractJobKeywords (jobText : List Char) (max : Nat := 35) : List (List Char) :=
  (((sortDesc (keywordFreq jobText)).map Prod.fst).take max)

/-- Check that `pat` occurs at the very start of `s`. -/
def listStartsWith : List Char → List Char → Bool
  | _, [] => true
  | [], _ :: _ => false
  | c :: s, p :: ps => c = p && listStartsWith s ps

/-- Model of `String.prototype.includes`: `pat` occurs as a contiguous
substring of `s`. -/
def includes (s pat : List Char) : Bool :=
  match s with
  | [] => listStartsWith [] pat
  | _ :: rest => listStartsWith s pat || includes rest pat

/-- Result record of `analyzeAts`. -/
structure AtsResult where
  score : Nat
  keywords : List (List Char)
  present : List (List Char)
  missing : List (List Char)
deriving DecidableEq

/-- Model of `analyzeAts` of src/app/page.tsx.  The loop that pushes each
keyword onto `present` or `missing` is rendered as the two filters.  The score
`Math.round((present.length / total) * 100)` is rendered as exact rational
rounding (half away from zero) in `Nat`: for `p ≤ total ≤ 35` the double
computation never strays across a rounding boundary, so the two agree. -/
def analyzeAts (jobText resumeText : List Char) : AtsResult :=
  let keywords := extractJobKeywords jobText
  let resume := resumeText.map Char.toLower
  let present := keywords.filter (fun k => includes resume k)
  let missing := keywords.filter (fun k => !(includes resume k))
  let total := if keywords.length = 0 then 1 else keywords.length
  { score := (200 * present.length + total) / (2 * total)
    keywords := keywords
    present := present
    missing := missing }

/-!
JSON values and a model of `JSON.parse` (used by `safeJsonParse` in
src/app/api/tailor/route.ts).
-/

/-- JSON values.  Numbers keep their source numeral; object fields keep
source order, duplicates included (lookup takes the last one, as a repeated
key overwrites in `JSON.parse`). -/
inductive Json where
  | null
  | bool (b : Bool)
  | num (lex : List Char)
  | str (s : List Char)
  | arr (elems : List Json)
  | obj (fields : List (List Char × Json))

/-- Model of the JS `String(...)` coercion on a parsed JSON value.  A number
stringifies to its source numeral (an idealization of the double re-formatting,
exact for the plain numerals the pipeline meets); an array joins its elements
with commas, a null element becoming empty. -/
def jsToString : Json → List Char
  | .null => ("null").data
  | .bool true => ("true").data
  | .bool false => ("false").data
  | .num lex => lex
  | .str s => s
  | .obj _ => ("[object Object]").data
  | .arr xs => jsArrJoin xs
where
  jsArrJoin : List Json → List Char
    | [] => []
    | [x] => jsElem x
    | x :: y :: xs => jsElem x ++ ',' :: jsArrJoin (y :: xs)
  jsElem : Json → List Char
    | .null => []
    | .bool true => ("true").data
    | .bool false => ("false").data
    | .num lex => lex
    | .str s => s
    | .obj _ => ("[object Object]").data
    | .arr xs => jsArrJoin xs
termination_by structural j => j

/-- Lookup of an object key; the last occurrence wins, as in `JSON.parse`. -/
def lookupLast (fields : List (List Char × Json)) (k : List Char) : Option Json :=
  match fields with
  | [] => none
  | (k', v) :: rest =>
    match lookupLast rest k with
    | some r => some r
    | none => if k' = k then some v else none

/-- Model of optional-chaining property access `j?.k`: `none` stands for the
JS `undefined`, produced on non-objects and absent keys alike. -/
def jget : Json → List Char → Option Json
  | .obj fields, k => lookupLast fields k
  | _, _ => none

/-- Chained optional property access on an optional value. -/
def jfield (o : Option Json) (k : String) : Option Json :=
  match o with
  | some j => jget j k.data
  | none => none

/-- Is a JSON numeral the number zero (every mantissa digit `0`)?  Exponent
underflow to the double zero is not modelled. -/
def numIsZero (lex : List Char) : Bool :=
  (lex.takeWhile (fun c => c ≠ 'e' && c ≠ 'E')).all (fun c => !('1' ≤ c && c ≤ '9'))

/-- JS truthiness of a parsed JSON value. -/
def truthy : Json → Bool
  | .null => false
  | .bool b => b
  | .num lex => !(numIsZero lex)
  | .str s => !s.isEmpty
  | .arr _ => true
  | .obj _ => true

/-- JS truthiness of a possibly-undefined value. -/
def truthyOpt : Option Json → Bool
  | some j => truthy j
  | none => false

/-- JSON (not JS) whitespace: the four characters the JSON grammar skips. -/
def isJsonWs (c : Char) : Bool :=
  c = ' ' || c = '\t' || c = '\n' || c = '\r'

/-- Value of an ASCII hex digit. -/
def hexDigit (c : Char) : Option Nat :=
  if '0' ≤ c && c ≤ '9' then some (c.toNat - 48)
  else if 'a' ≤ c && c ≤ 'f' then some (c.toNat - 87)
  else if 'A' ≤ c && c ≤ 'F' then some (c.toNat - 55)
  else none

/-- Value of a four-digit hex escape. -/
def hex4 (a b c d : Char) : Option Nat :=
  match hexDigit a, hexDigit b, hexDigit c, hexDigit d with
  | some x, some y, some z, some w => some (((x * 16 + y) * 16 + z) * 16 + w)
  | _, _, _, _ => none

/-- Prepend a UTF-16 code unit to the unit list of a partial string parse. -/
def consUnit (n : Nat) (o : Option (List Nat × List Char)) : Option (List Nat × List Char) :=
  o.map (fun p => (n :: p.1, p.2))

/-- First string-decoding pass: the body of a JSON string after the opening
quote, as the list of its UTF-16 code units (one unit per escape; a literal
character contributes its code point), together with the input after the
closing quote.  Control characters and bad escapes are rejected. -/
def parseStrUnits : List Char → Option (List Nat × List Char)
  | [] => none
  | '"' :: rest => some ([], rest)
  | '\\' :: rest =>
    match rest with
    | '"' :: r => consUnit 34 (parseStrUnits r)
    | '\\' :: r => consUnit 92 (parseStrUnits r)
    | '/' :: r => consUnit 47 (parseStrUnits r)
    | 'b' :: r => consUnit 8 (parseStrUnits r)
    | 'f' :: r => consUnit 12 (parseStrUnits r)
    | 'n' :: r => consUnit 10 (parseStrUnits r)
    | 'r' :: r => consUnit 13 (parseStrUnits r)
    | 't' :: r => consUnit 9 (parseStrUnits r)
    | 'u' :: a :: b :: c :: d :: r =>
      match hex4 a b c d with
      | some n => consUnit n (parseStrUnits r)
      | none => none
    | _ => none
  | c :: rest => if c.toNat < 0x20 then none else consUnit c.toNat (parseStrUnits rest)

/-- Is a code unit a high surrogate? -/
def isHighSur (n : Nat) : Bool := 0xd800 ≤ n && n ≤ 0xdbff

/-- Is a code unit a low surrogate? -/
def isLowSur (n : Nat) : Bool := 0xdc00 ≤ n && n ≤ 0xdfff

/-- Second string-decoding pass: pair up surrogate escapes into code points.
A lone surrogate, which would give an unpaired UTF-16 unit with no `Char`
counterpart, is rendered as U+FFFD.  The pending argument holds a high
surrogate waiting for its partner. -/
def combineGo (pending : Option Nat) : List Nat → List Char
  | [] =>
    match pending with
    | some _ => ['�']
    | none => []
  | m :: rest =>
    match pending with
    | some n =>
      if isLowSur m then
        Char.ofNat (0x10000 + (n - 0xd800) * 0x400 + (m - 0xdc00)) :: combineGo none rest
      else if isHighSur m then '�' :: combineGo (some m) rest
      else '�' :: Char.ofNat m :: combineGo none rest
    | none =>
      if isHighSur m then combineGo (some m) rest
      else if isLowSur m then '�' :: combineGo none rest
      else Char.ofNat m :: combineGo none rest

/-- Body of a JSON string after the opening quote: decoded content and the
input after the closing quote. -/
def parseStringBody (l : List Char) : Option (List Char × List Char) :=
  (parseStrUnits l).map (fun p => (combineGo none p.1, p.2))

/-- Exponent tail of a JSON numeral, after the `e`: optional sign then at
least one digit. -/
def expTail : List Char → Option (List Char × List Char)
  | '+' :: r =>
    match r with
    | c :: _ => if c.isDigit then some ('+' :: r.takeWhile Char.isDigit, r.dropWhile Char.isDigit) else none
    | [] => none
  | '-' :: r =>
    match r with
    | c :: _ => if c.isDigit then some ('-' :: r.takeWhile Char.isDigit, r.dropWhile Char.isDigit) else none
    | [] => none
  | r =>
    match r with
    | c :: _ => if c.isDigit then some (r.takeWhile Char.isDigit, r.dropWhile Char.isDigit) else none
    | [] => none

/-- A JSON numeral at the head of the input: optional minus, integer part
(`0` or a nonzero-led digit run), optional fraction, optional exponent.
Returns the numeral and the rest. -/
def parseNumber (l : List Char) : Option (List Char × List Char) :=
  let signed := match l with
    | '-' :: r => ((['-'] : List Char), r)
    | _ => (([] : List Char), l)
  let intRes : Option (List Char × List Char) :=
    match signed.2 with
    | '0' :: r => some (['0'], r)
    | c :: r =>
      if '1' ≤ c && c ≤ '9' then some (c :: r.takeWhile Char.isDigit, r.dropWhile Char.isDigit)
      else none
    | [] => none
  match intRes with
  | none => none
  | some (ip, l2) =>
    let fres : List Char × List Char :=
      match l2 with
      | '.' :: r =>
        match r with
        | c :: _ =>
          if c.isDigit then ('.' :: r.takeWhile Char.isDigit, r.dropWhile Char.isDigit)
          else ([], l2)
        | [] => ([], l2)
      | _ => ([], l2)
    let eres : List Char × List Char :=
      match fres.2 with
      | e :: r =>
        if e = 'e' || e = 'E' then
          match expTail r with
          | some (t, l4) => (e :: t, l4)
          | none => ([], fres.2)
        else ([], fres.2)
      | [] => ([], fres.2)
    some (signed.1 ++ ip ++ fres.1 ++ eres.1, eres.2)

/-- Parser modes: a value, the members of an object after its opening brace or
a comma, the elements of an array after its opening bracket or a comma. -/
inductive PMode where
  | value
  | members (acc : List (List Char × Json))
  | elements (acc : List Json)

/-- Fueled recursive-descent JSON parser.  Every recursive call spends one
unit of fuel and at most two calls happen per consumed input character, so
the fuel supplied by `jsonParse` is never exhausted. -/
def pj : Nat → PMode → List Char → Option (Json × List Char)
  | 0, _, _ => none
  | fuel + 1, .value, l =>
    match l.dropWhile isJsonWs with
    | [] => none
    | c :: rest =>
      if c = '{' then pj fuel (.members []) rest
      else if c = '[' then pj fuel (.elements []) rest
      else if c = '"' then (parseStringBody rest).map (fun p => (Json.str p.1, p.2))
      else if c = 't' then
        match rest with
        | 'r' :: 'u' :: 'e' :: r => some (.bool true, r)
        | _ => none
      else if c = 'f' then
        match rest with
        | 'a' :: 'l' :: 's' :: 'e' :: r => some (.bool false, r)
        | _ => none
      else if c = 'n' then
        match rest with
        | 'u' :: 'l' :: 'l' :: r => some (.null, r)
        | _ => none
      else if c = '-' || c.isDigit then (parseNumber (c :: rest)).map (fun p => (Json.num p.1, p.2))
      else none
  | fuel + 1, .members acc, l =>
    match l.dropWhile isJsonWs with
    | [] => none
    | c :: rest =>
      if c = '}' && acc.isEmpty then some (.obj [], rest)
      else if c = '"' then
        match parseStringBody rest with
        | none => none
        | some (key, r1) =>
          match r1.dropWhile isJsonWs with
          | ':' :: r2 =>
            match pj fuel .value r2 with
            | none => none
            | some (v, r3) =>
              match r3.dropWhile isJsonWs with
              | ',' :: r4 => pj fuel (.members (acc ++ [(key, v)])) r4
              | '}' :: r4 => some (.obj (acc ++ [(key, v)]), r4)
              | _ => none
          | _ => none
      else none
  | fuel + 1, .elements acc, l =>
    match l.dropWhile isJsonWs with
    | [] => none
    | ']' :: rest =>
      if acc.isEmpty then some (.arr [], rest)
      else none
    | _ :: _ =>
      match pj fuel .value l with
      | none => none
      | some (v, r1) =>
        match r1.dropWhile isJsonWs with
        | ',' :: r2 => pj fuel (.elements (acc ++ [v])) r2
        | ']' :: r2 => some (.arr (acc ++ [v]), r2)
        | _ => none

/-- Model of `safeJsonParse`: `JSON.parse` of the whole input, `none` instead
of a thrown error. -/
def jsonParse (l : List Char) : Option Json :=
  match pj (2 * l.length + 8) .value l with
  | some (j, rest) => if (rest.dropWhile isJsonWs).isEmpty then some j else none
  | none => none

/-!
`extractFirstJsonObject` and the coercion pipeline of the tailor route.
-/

/-- Does the input start with a code fence of the form three backticks
followed by `json` in any letter case? -/
def fenceJsonAt : List Char → Bool
  | '`' :: '`' :: '`' :: j :: s :: o :: n :: _ =>
      (j = 'j' || j = 'J') && (s = 's' || s = 'S') && (o = 'o' || o = 'O') && (n = 'n' || n = 'N')
  | _ => false

/-- One fueled scan modelling the global replacement of a ` ```json `
fence marker together with the whitespace run after it.  The fuel, set to the
input length by the caller, only discharges termination; it is never
exhausted because each step consumes at least one character. -/
def stripJsonFenceGo : Nat → List Char → List Char
  | 0, l => l
  | fuel + 1, l =>
    match l with
    | [] => []
    | c :: rest =>
      if fenceJsonAt (c :: rest) then stripJsonFenceGo fuel ((rest.drop 6).dropWhile isJsWs)
      else c :: stripJsonFenceGo fuel rest

/-- Global removal of remaining three-backtick fence markers. -/
def stripTicks : List Char → List Char
  | '`' :: '`' :: '`' :: rest => stripTicks rest
  | c :: rest => c :: stripTicks rest
  | [] => []

/-- Suffix of the input from the first opening brace (the `indexOf` step). -/
def dropToBrace : List Char → Option (List Char)
  | [] => none
  | '{' :: rest => some ('{' :: rest)
  | _ :: rest => dropToBrace rest

/-- Brace-depth scan from the first opening brace: the prefix up to the brace
that closes depth zero, or `none` when the braces never balance. -/
def braceScan (depth : Nat) : List Char → Option (List Char)
  | [] => none
  | c :: rest =>
    if c = '{' then (braceScan (depth + 1) rest).map (fun t => c :: t)
    else if c = '}' then
      if depth = 1 then some ['}']
      else (braceScan (depth - 1) rest).map (fun t => c :: t)
    else (braceScan depth rest).map (fun t => c :: t)

/-- Model of `extractFirstJsonObject` of src/app/api/tailor/route.ts. -/
def extractFirstJsonObject (text : List Char) : Option (List Char) :=
  if text.isEmpty then none
  else
    let cleaned := jsTrim (stripTicks (stripJsonFenceGo text.length text))
    match dropToBrace cleaned with
    | none => none
    | some fromBrace => braceScan 0 fromBrace

/-- Model of the coercion sequence of the POST handler: direct parse first;
when the result is missing or falsy, parse the first extracted balanced
object instead (if one exists). -/
def coerceParsed (content : List Char) : Option Json :=
  let parsed := jsonParse content
  let failed :=
    match parsed with
    | none => true
    | some v => !truthy v
  if failed then
    match extractFirstJsonObject content with
    | some extracted => jsonParse extracted
    | none => parsed
  else parsed

/-- Model of the parse-and-check section of the POST handler: the coerced
value when it has truthy `resume` and `cover_letter` fields, otherwise the
error response carrying the first 4000 characters of the raw model output. -/
def tailorParsedOrError (content : List Char) : Except (List Char) Json :=
  match coerceParsed content with
  | none => .error (content.take 4000)
  | some j =>
    if truthyOpt (jget j (("resume").data)) && truthyOpt (jget j (("cover_letter").data)) then .ok j
    else .error (content.take 4000)

/-- The raw payload surfaced by a failed parse, `none` on success. -/
def errPayload : Except (List Char) Json → Option (List Char)
  | .error e => some e
  | .ok _ => none

/-- Did the parse-and-check section succeed? -/
def isOkE : Except (List Char) Json → Bool
  | .ok _ => true
  | .error _ => false

/-!
The normalized resume record (the `TailoredResume` type of
src/lib/resumeFormat.ts) and the normalizer of src/app/api/tailor/route.ts.
Optional scalar fields are `Option`: `none` models a JS `undefined` value and
`some` a present string (normalization never stores an empty one).
-/

/-- A labeled link of the resume header. -/
structure ResumeLink where
  label : List Char
  url : List Char
deriving DecidableEq

/-- The resume header. -/
structure ResumeHeader where
  name : List Char
  location : Option (List Char)
  email : Option (List Char)
  phone : Option (List Char)
  links : List ResumeLink
deriving DecidableEq

/-- The four skill category lists. -/
structure ResumeSkills where
  languages : List (List Char)
  frameworks : List (List Char)
  tools : List (List Char)
  other : List (List Char)
deriving DecidableEq

/-- An experience entry. -/
structure ResumeExperience where
  company : List Char
  title : List Char
  location : Option (List Char)
  start : Option (List Char)
  «end» : Option (List Char)
  bullets : List (List Char)
deriving DecidableEq

/-- A project entry. -/
structure ResumeProject where
  name : List Char
  tech : List (List Char)
  bullets : List (List Char)
deriving DecidableEq

/-- An education entry. -/
structure ResumeEducation where
  school : List Char
  degree : Option (List Char)
  location : Option (List Char)
  year : Option (List Char)
  details : List (List Char)
deriving DecidableEq

/-- The normalized resume record. -/
structure TailoredResume where
  header : ResumeHeader
  summary : List Char
  skills : ResumeSkills
  experience : List ResumeExperience
  projects : List ResumeProject
  education : List ResumeEducation
deriving DecidableEq

/-- Model of `String(x ?? "")`: undefined and null become the empty string,
anything else is coerced. -/
def jsStrOf : Option Json → List Char
  | none => []
  | some .null => []
  | some v => jsToString v

/-- Coerce-and-trim for a required string field. -/
def reqField (o : Option Json) : List Char :=
  jsTrim (jsStrOf o)

/-- Coerce-and-trim for an optional scalar field: an empty result is stored
as unset (the `|| undefined` of the source). -/
def optField (o : Option Json) : Option (List Char) :=
  let s := jsTrim (jsStrOf o)
  if s.isEmpty then none else some s

/-- Model of `Array.isArray(x) ? x.map(String) : []`. -/
def strListOf (o : Option Json) : List (List Char) :=
  match o with
  | some (.arr xs) => xs.map jsToString
  | _ => []

/-- Model of `Array.isArray(x) ? x.map(String).filter(Boolean) : []`. -/
def strListFiltered (o : Option Json) : List (List Char) :=
  (strListOf o).filter (fun s => !s.isEmpty)

/-- Field coercion of one `header.links` entry. -/
def normalizeLink (x : Json) : ResumeLink :=
  { label := jsTrim (jsStrOf (jget x (("label").data)))
    url := jsTrim (jsStrOf (jget x (("url").data))) }

/-- The coerced and filtered link list. -/
def linksOf (o : Option Json) : List ResumeLink :=
  match o with
  | some (.arr xs) => (xs.map normalizeLink).filter (fun x => !x.label.isEmpty || !x.url.isEmpty)
  | _ => []

/-- Field coercion of one experience entry (before the company/title filter). -/
def normalizeExperienceEntry (e : Json) : ResumeExperience :=
  { company := reqField (jget e (("company").data))
    title := reqField (jget e (("title").data))
    location := optField (jget e (("location").data))
    start := optField (jget e (("start").data))
    «end» := optField (jget e (("end").data))
    bullets := strListFiltered (jget e (("bullets").data)) }

/-- Field coercion of one project entry (before the name filter). -/
def normalizeProjectEntry (p : Json) : ResumeProject :=
  { name := reqField (jget p (("name").data))
    tech := strListFiltered (jget p (("tech").data))
    bullets := strListFiltered (jget p (("bullets").data)) }

/-- Field coercion of one education entry (before the school filter). -/
def normalizeEducationEntry (e : Json) : ResumeEducation :=
  { school := reqField (jget e (("school").data))
    degree := optField (jget e (("degree").data))
    location := optField (jget e (("location").data))
    year := optField (jget e (("year").data))
    details := strListFiltered (jget e (("details").data)) }

/-- Entry list of a section when the field holds an array, empty otherwise. -/
def entriesOf (o : Option Json) (f : Json → α) : List α :=
  match o with
  | some (.arr xs) => xs.map f
  | _ => []

/-- Model of `normalizeResume` of src/app/api/tailor/route.ts: total field
coercion followed by the three drop filters. -/
def normalizeResume (r : Json) : TailoredResume :=
  let hdr := jfield (some r) ("header")
  let skl := jfield (some r) ("skills")
  { header :=
      { name :=
          (let s := jsTrim (jsStrOf (jfield hdr ("name")))
           if s.isEmpty then ("NAME").data else s)
        location := optField (jfield hdr ("location"))
        email := optField (jfield hdr ("email"))
        phone := optField (jfield hdr ("phone"))
        links := linksOf (jfield hdr ("links")) }
    summary :=
      (match jfield (some r) ("summary") with
       | some (.str s) => jsTrim s
       | _ => [])
    skills :=
      { languages := strListOf (jfield skl ("languages"))
        frameworks := strListOf (jfield skl ("frameworks"))
        tools := strListOf (jfield skl ("tools"))
        other := strListOf (jfield skl ("other")) }
    experience :=
      (entriesOf (jfield (some r) ("experience")) normalizeExperienceEntry).filter
        (fun e => !e.company.isEmpty && !e.title.isEmpty)
    projects :=
      (entriesOf (jfield (some r) ("projects")) normalizeProjectEntry).filter
        (fun p => !p.name.isEmpty)
    education :=
      (entriesOf (jfield (some r) ("education")) normalizeEducationEntry).filter
        (fun e => !e.school.isEmpty) }

/-!
Re-embedding of a normalized resume as the JS object the route hands on
(for the idempotence round trip).  An unset optional field is re-embedded as
null: the normalizer treats the JS undefined it actually holds and null
identically (`x ?? ""` and `Array.isArray` see no difference).
-/

/-- JSON image of an optional scalar field. -/
def jopt : Option (List Char) → Json
  | none => .null
  | some s => .str s

/-- JSON image of a link. -/
def linkToJson (l : ResumeLink) : Json :=
  .obj [(("label").data, .str l.label), (("url").data, .str l.url)]

/-- JSON image of an experience entry. -/
def expToJson (e : ResumeExperience) : Json :=
  .obj [(("company").data, .str e.company), (("title").data, .str e.title),
        (("location").data, jopt e.location), (("start").data, jopt e.start),
        (("end").data, jopt e.«end»),
        (("bullets").data, .arr (e.bullets.map .str))]

/-- JSON image of a project entry. -/
def projToJson (p : ResumeProject) : Json :=
  .obj [(("name").data, .str p.name),
        (("tech").data, .arr (p.tech.map .str)),
        (("bullets").data, .arr (p.bullets.map .str))]

/-- JSON image of an education entry. -/
def eduToJson (e : ResumeEducation) : Json :=
  .obj [(("school").data, .str e.school), (("degree").data, jopt e.degree),
        (("location").data, jopt e.location), (("year").data, jopt e.year),
        (("details").data, .arr (e.details.map .str))]

/-- JSON image of a normalized resume. -/
def resumeToJson (n : TailoredResume) : Json :=
  .obj [
    (("header").data, .obj [
      (("name").data, .str n.header.name),
      (("location").data, jopt n.header.location),
      (("email").data, jopt n.header.email),
      (("phone").data, jopt n.header.phone),
      (("links").data, .arr (n.header.links.map linkToJson))]),
    (("summary").data, .str n.summary),
    (("skills").data, .obj [
      (("languages").data, .arr (n.skills.languages.map .str)),
      (("frameworks").data, .arr (n.skills.frameworks.map .str)),
      (("tools").data, .arr (n.skills.tools.map .str)),
      (("other").data, .arr (n.skills.other.map .str))]),
    (("experience").data, .arr (n.experience.map expToJson)),
    (("projects").data, .arr (n.projects.map projToJson)),
    (("education").data, .arr (n.education.map eduToJson))]

/-!
The ATS formatter of src/lib/resumeFormat.ts.
-/

/-- One pass of the global whitespace-collapsing replacement: every maximal
run of JS whitespace becomes a single space. -/
def collapseGo (prevWs : Bool) : List Char → List Char
  | [] => []
  | c :: rest =>
    if isJsWs c then
      if prevWs then collapseGo true rest else ' ' :: collapseGo true rest
    else c :: collapseGo false rest

/-- Whitespace collapsing over a whole string. -/
def collapseWs (l : List Char) : List Char :=
  collapseGo false l

/-- Model of `clean` of src/lib/resumeFormat.ts: collapse whitespace runs to
single spaces, then trim. -/
def clean (s : List Char) : List Char :=
  jsTrim (collapseWs s)

/-- Clean of an optional string (`s ?? ""`). -/
def cleanOpt (o : Option (List Char)) : List Char :=
  clean (o.getD [])

/-- Model of `joinNonEmpty`: clean the parts, drop the empty ones, join. -/
def joinNonEmpty (parts : List (Option (List Char))) (sep : List Char) : List Char :=
  List.intercalate sep ((parts.map cleanOpt).filter (fun s => !s.isEmpty))

/-- JS truthiness of an optional string field: present and nonempty. -/
def truthyS : Option (List Char) → Bool
  | some s => !s.isEmpty
  | none => false

/-- Lines of one experience entry: header line, bullet lines (placeholder if
none), blank separator line. -/
def expEntryLines (e : ResumeExperience) : List (List Char) :=
  let header :=
    clean e.company ++ (" — ").data ++ clean e.title
    ++ (if truthyS e.location then (" | ").data ++ clean (e.location.getD []) else [])
    ++ (if truthyS e.start || truthyS e.«end» then
          (" | ").data ++ joinNonEmpty [e.start, e.«end»] (("–").data)
        else [])
  let bullets := (e.bullets.map clean).filter (fun b => !b.isEmpty)
  [header]
  ++ (if bullets.isEmpty then [("- —").data] else bullets.map (fun b => ("- ").data ++ b))
  ++ [[]]

/-- Lines of one project entry. -/
def projEntryLines (p : ResumeProject) : List (List Char) :=
  let tech := (p.tech.map clean).filter (fun t => !t.isEmpty)
  let header :=
    clean p.name
    ++ (if tech.isEmpty then [] else (" | Tech: ").data ++ List.intercalate ((", ").data) tech)
  let bullets := (p.bullets.map clean).filter (fun b => !b.isEmpty)
  [header]
  ++ (if bullets.isEmpty then [("- —").data] else bullets.map (fun b => ("- ").data ++ b))
  ++ [[]]

/-- Lines of one education entry: header line (placeholder if it comes out
empty) and detail lines, no blank separator. -/
def eduEntryLines (e : ResumeEducation) : List (List Char) :=
  let header :=
    joinNonEmpty
      [some (clean e.school
             ++ (if truthyS e.degree then (" — ").data ++ clean (e.degree.getD []) else [])),
       e.location, e.year]
      ((" | ").data)
  let details := (e.details.map clean).filter (fun d => !d.isEmpty)
  [if header.isEmpty then ("—").data else header]
  ++ details.map (fun d => ("- ").data ++ d)

/-- Model of `formatResumeATS` of src/lib/resumeFormat.ts. -/
def formatResumeATS (resume : TailoredResume) : List Char :=
  let h := resume.header
  let name := let c := clean h.name; if c.isEmpty then ("NAME").data else c
  let links :=
    List.intercalate ((" | ").data)
      ((h.links.map (fun l => clean (if l.url.isEmpty then l.label else l.url))).filter
        (fun s => !s.isEmpty))
  let topLine2 :=
    joinNonEmpty [h.location, h.email, h.phone, if links.isEmpty then none else some links]
      ((" | ").data)
  let summaryLines :=
    if (clean resume.summary).isEmpty then [("—").data] else [jsTrim resume.summary]
  let s := resume.skills
  let skillsLines0 :=
    (if s.languages.isEmpty then [] else
      [("Languages: ").data ++ List.intercalate ((", ").data) s.languages])
    ++ (if s.frameworks.isEmpty then [] else
      [("Frameworks: ").data ++ List.intercalate ((", ").data) s.frameworks])
    ++ (if s.tools.isEmpty then [] else
      [("Tools: ").data ++ List.intercalate ((", ").data) s.tools])
    ++ (if s.other.isEmpty then [] else
      [("Other: ").data ++ List.intercalate ((", ").data) s.other])
  let skillsLines := if skillsLines0.isEmpty then [("—").data] else skillsLines0
  let out : List (List Char) :=
    [name]
    ++ (if topLine2.isEmpty then [] else [topLine2])
    ++ [[]]
    ++ [("-- SUMMARY --").data] ++ summaryLines ++ [[]]
    ++ [("-- SKILLS --").data] ++ skillsLines ++ [[]]
    ++ [("-- EXPERIENCE --").data]
    ++ (if resume.experience.isEmpty then [("—").data, []]
        else (resume.experience.map expEntryLines).flatten)
    ++ [("-- PROJECTS --").data]
    ++ (if resume.projects.isEmpty then [("—").data, []]
        else (resume.projects.map projEntryLines).flatten)
    ++ [("-- EDUCATION --").data]
    ++ (if resume.education.isEmpty then [("—").data]
        else (resume.education.map eduEntryLines).flatten)
  jsTrim (List.intercalate ['\n'] out) ++ ['\n']

/-- The three client-visible texts of a successful tailor response, each
passed through `clamp` by the route: the extracted (or fallback) resume text,
the canonical ATS text of the normalized model resume, and the coerced cover
letter. -/
def tailorSuccessTexts (originalRaw : List Char) (resumeVal : Json) (coverVal : Option Json) :
    List Char × List Char × List Char :=
  (clamp originalRaw,
   clamp (formatResumeATS (normalizeResume resumeVal)),
   clamp (jsStrOf coverVal))

/-!
Invariants of normalized resumes, stated against the definitions above.
-/

/-- Well-formedness of an optional scalar field: when present, its value is
trimmed and nonempty. -/
def OptOk (o : Option (List Char)) : Prop :=
  ∀ s, o = some s → jsTrim s = s ∧ s ≠ []

/-- Well-formedness of a link produced by normalization: both parts trimmed
and at least one nonempty. -/
def LinkOk (l : ResumeLink) : Prop :=
  jsTrim l.label = l.label ∧ jsTrim l.url = l.url ∧ (l.label ≠ [] ∨ l.url ≠ [])

/-- Well-formedness of a normalized experience entry. -/
def ExpOk (e : ResumeExperience) : Prop :=
  jsTrim e.company = e.company ∧ e.company ≠ [] ∧
  jsTrim e.title = e.title ∧ e.title ≠ [] ∧
  OptOk e.location ∧ OptOk e.start ∧ OptOk e.«end» ∧
  ∀ b ∈ e.bullets, b ≠ []

/-- Well-formedness of a normalized project entry. -/
def ProjOk (p : ResumeProject) : Prop :=
  jsTrim p.name = p.name ∧ p.name ≠ [] ∧
  (∀ t ∈ p.tech, t ≠ []) ∧ (∀ b ∈ p.bullets, b ≠ [])

/-- Well-formedness of a normalized education entry. -/
def EduOk (e : ResumeEducation) : Prop :=
  jsTrim e.school = e.school ∧ e.school ≠ [] ∧
  OptOk e.degree ∧ OptOk e.location ∧ OptOk e.year ∧
  ∀ d ∈ e.details, d ≠ []

/-- Invariants every output of the normalizer satisfies.  Elements of the
skill category lists and of bullet, tech and detail lists carry no trimming
guarantee (the source string-coerces them without trimming). -/
def Normalized (n : TailoredResume) : Prop :=
  jsTrim n.header.name = n.header.name ∧ n.header.name ≠ [] ∧
  OptOk n.header.location ∧ OptOk n.header.email ∧ OptOk n.header.phone ∧
  (∀ l ∈ n.header.links, LinkOk l) ∧
  jsTrim n.summary = n.summary ∧
  (∀ e ∈ n.experience, ExpOk e) ∧
  (∀ p ∈ n.projects, ProjOk p) ∧
  (∀ e ∈ n.education, EduOk e)

/-- The empty resume: the value the formatter receives for the raw object
with an empty name and nothing else. -/
def emptyResume : TailoredResume :=
  { header := { name := [], location := none, email := none, phone := none, links := [] }
    summary := []
    skills := { languages := [], frameworks := [], tools := [], other := [] }
    experience := [], projects := [], education := [] }

/-!
Lemmas about trimming.
-/

theorem dropWhile_dropWhile (p : Char → Bool) :
    ∀ l : List Char, (l.dropWhile p).dropWhile p = l.dropWhile p
  | [] => rfl
  | c :: l => by
    by_cases h : p c
    · simp only [List.dropWhile_cons, h, if_true]
      exact dropWhile_dropWhile p l
    · simp [List.dropWhile_cons, h]

theorem dropWhile_shape (p : Char → Bool) :
    ∀ l : List Char, l.dropWhile p = [] ∨ ∃ c m, l.dropWhile p = c :: m ∧ p c = false
  | [] => .inl rfl
  | c :: l => by
    by_cases h : p c
    · simpa [List.dropWhile_cons, h] using dropWhile_shape p l
    · exact .inr ⟨c, l, by simp [List.dropWhile_cons, h],
        by simpa using h⟩

theorem dropWhile_append_single {p : Char → Bool} {c : Char} (hc : p c = false) :
    ∀ x : List Char, (x ++ [c]).dropWhile p = x.dropWhile p ++ [c]
  | [] => by simp [List.dropWhile_cons, hc]
  | a :: x => by
    by_cases h : p a
    · simpa [List.dropWhile_cons, h] using dropWhile_append_single hc x
    · simp [List.dropWhile_cons, h]

theorem trimEnd_cons {c : Char} (hc : isJsWs c = false) (m : List Char) :
    trimEnd (c :: m) = c :: trimEnd m := by
  unfold trimEnd
  rw [List.reverse_cons, dropWhile_append_single hc, List.reverse_append]
  rfl

theorem trimEnd_trimEnd (l : List Char) : trimEnd (trimEnd l) = trimEnd l := by
  unfold trimEnd
  rw [List.reverse_reverse, dropWhile_dropWhile]

theorem jsTrim_idem (l : List Char) : jsTrim (jsTrim l) = jsTrim l := by
  unfold jsTrim
  rcases dropWhile_shape isJsWs l with h | ⟨c, m, h, hc⟩
  · rw [h]
    rfl
  · rw [h, trimEnd_cons hc, List.dropWhile_cons, if_neg (by simp [hc]),
      trimEnd_cons hc, trimEnd_trimEnd]

/-!
Lemmas about the normalizer.
-/

theorem isEmpty_false_of_ne {l : List Char} (h : l ≠ []) : l.isEmpty = false := by
  cases l with
  | nil => exact absurd rfl h
  | cons a l => rfl

theorem ne_nil_of_isEmpty_false {l : List Char} (h : l.isEmpty = false) : l ≠ [] := by
  cases l with
  | nil => simp at h
  | cons a l => exact List.cons_ne_nil a l

theorem jsStrOf_str (s : List Char) : jsStrOf (some (.str s)) = s := rfl

theorem reqField_str {s : List Char} (h : jsTrim s = s) : reqField (some (.str s)) = s := by
  unfold reqField
  rw [jsStrOf_str, h]

theorem reqField_trimmed (o : Option Json) : jsTrim (reqField o) = reqField o :=
  jsTrim_idem _

theorem optField_ok (o : Option Json) : OptOk (optField o) := by
  intro s hs
  by_cases h : (jsTrim (jsStrOf o)).isEmpty
  · simp [optField, h] at hs
  · simp [optField, h] at hs
    subst hs
    exact ⟨jsTrim_idem _, fun hnil => by simp [hnil] at h⟩

theorem optField_jopt {o : Option (List Char)} (h : OptOk o) : optField (some (jopt o)) = o := by
  cases o with
  | none => rfl
  | some s =>
    obtain ⟨ht, hne⟩ := h s rfl
    show optField (some (.str s)) = some s
    simp [optField, jsStrOf_str, ht, isEmpty_false_of_ne hne]

theorem jsToString_str (s : List Char) : jsToString (.str s) = s := rfl

theorem strListOf_strs (xs : List (List Char)) : strListOf (some (.arr (xs.map .str))) = xs := by
  show (xs.map Json.str).map jsToString = xs
  rw [List.map_map]
  have : ∀ x ∈ xs, (jsToString ∘ Json.str) x = x := fun x _ => rfl
  rw [List.map_congr_left this, List.map_id']

theorem strListFiltered_strs {xs : List (List Char)} (h : ∀ x ∈ xs, x ≠ []) :
    strListFiltered (some (.arr (xs.map .str))) = xs := by
  unfold strListFiltered
  rw [strListOf_strs]
  exact List.filter_eq_self.mpr fun a ha => by
    rw [isEmpty_false_of_ne (h a ha)]
    rfl

theorem strListFiltered_ne {o : Option Json} : ∀ b ∈ strListFiltered o, b ≠ [] := by
  intro b hb
  unfold strListFiltered at hb
  exact ne_nil_of_isEmpty_false (by simpa using (List.mem_filter.mp hb).2)

theorem normalizeLink_linkToJson (l : ResumeLink) :
    normalizeLink (linkToJson l) = { label := jsTrim l.label, url := jsTrim l.url } := rfl

theorem linksOf_roundtrip {ls : List ResumeLink} (h : ∀ l ∈ ls, LinkOk l) :
    linksOf (some (.arr (ls.map linkToJson))) = ls := by
  show ((ls.map linkToJson).map normalizeLink).filter
      (fun x => !x.label.isEmpty || !x.url.isEmpty) = ls
  rw [List.map_map]
  have hmap : ∀ l ∈ ls, (normalizeLink ∘ linkToJson) l = l := by
    intro l hl
    obtain ⟨h1, h2, _⟩ := h l hl
    show normalizeLink (linkToJson l) = l
    rw [normalizeLink_linkToJson, h1, h2]
  rw [List.map_congr_left hmap, List.map_id']
  apply List.filter_eq_self.mpr
  intro a ha
  obtain ⟨_, _, h3⟩ := h a ha
  rcases h3 with h3 | h3 <;> simp [isEmpty_false_of_ne h3]

theorem expEntry_roundtrip {e : ResumeExperience} (h : ExpOk e) :
    normalizeExperienceEntry (expToJson e) = e := by
  obtain ⟨hc, hcne, ht, htne, hl, hs, he, hb⟩ := h
  show ResumeExperience.mk (reqField (some (.str e.company))) (reqField (some (.str e.title)))
      (optField (some (jopt e.location))) (optField (some (jopt e.start)))
      (optField (some (jopt e.«end»))) (strListFiltered (some (.arr (e.bullets.map .str)))) =
    e
  rw [reqField_str hc, reqField_str ht, optField_jopt hl, optField_jopt hs,
    optField_jopt he, strListFiltered_strs hb]

theorem projEntry_roundtrip {p : ResumeProject} (h : ProjOk p) :
    normalizeProjectEntry (projToJson p) = p := by
  obtain ⟨hn, hnne, htech, hb⟩ := h
  show ResumeProject.mk (reqField (some (.str p.name)))
      (strListFiltered (some (.arr (p.tech.map .str))))
      (strListFiltered (some (.arr (p.bullets.map .str)))) = p
  rw [reqField_str hn, strListFiltered_strs htech, strListFiltered_strs hb]

theorem eduEntry_roundtrip {e : ResumeEducation} (h : EduOk e) :
    normalizeEducationEntry (eduToJson e) = e := by
  obtain ⟨hs, hsne, hd, hl, hy, hdet⟩ := h
  show ResumeEducation.mk (reqField (some (.str e.school))) (optField (some (jopt e.degree)))
      (optField (some (jopt e.location))) (optField (some (jopt e.year)))
      (strListFiltered (some (.arr (e.details.map .str)))) = e
  rw [reqField_str hs, optField_jopt hd, optField_jopt hl, optField_jopt hy,
    strListFiltered_strs hdet]

theorem linksOf_ok (o : Option Json) : ∀ l ∈ linksOf o, LinkOk l := by
  intro l hl
  unfold linksOf at hl
  split at hl
  · next xs =>
    obtain ⟨hmem, hcond⟩ := List.mem_filter.mp hl
    obtain ⟨x, hx, hxe⟩ := List.mem_map.mp hmem
    subst hxe
    refine ⟨jsTrim_idem _, jsTrim_idem _, ?_⟩
    simp only [Bool.or_eq_true, Bool.not_eq_true'] at hcond
    rcases hcond with hc | hc
    · exact .inl (ne_nil_of_isEmpty_false hc)
    · exact .inr (ne_nil_of_isEmpty_false hc)
  · simp at hl

theorem normalizeResume_normalized (r : Json) : Normalized (normalizeResume r) := by
  refine ⟨?_, ?_, optField_ok _, optField_ok _, optField_ok _, linksOf_ok _, ?_, ?_, ?_, ?_⟩
  · show jsTrim (normalizeResume r).header.name = (normalizeResume r).header.name
    dsimp only [normalizeResume]
    by_cases h : (jsTrim (jsStrOf (jfield (jfield (some r) ("header")) ("name")))).isEmpty
    · simp only [h, if_true]
      decide
    · simp only [h, if_false]
      exact jsTrim_idem _
  · show (normalizeResume r).header.name ≠ []
    dsimp only [normalizeResume]
    by_cases h : (jsTrim (jsStrOf (jfield (jfield (some r) ("header")) ("name")))).isEmpty
    · simp only [h, if_true]
      decide
    · simp only [h, if_false]
      exact ne_nil_of_isEmpty_false (by simpa using h)
  · show jsTrim (normalizeResume r).summary = (normalizeResume r).summary
    dsimp only [normalizeResume]
    split
    · exact jsTrim_idem _
    · rfl
  · intro e he
    dsimp only [normalizeResume] at he
    obtain ⟨hmem, hcond⟩ := List.mem_filter.mp he
    unfold entriesOf at hmem
    split at hmem
    · next xs =>
      obtain ⟨x, hx, hxe⟩ := List.mem_map.mp hmem
      subst hxe
      simp only [Bool.and_eq_true, Bool.not_eq_true'] at hcond
      obtain ⟨h1, h2⟩ := hcond
      exact ⟨jsTrim_idem _, ne_nil_of_isEmpty_false h1,
        jsTrim_idem _, ne_nil_of_isEmpty_false h2,
        optField_ok _, optField_ok _, optField_ok _, strListFiltered_ne⟩
    · simp at hmem
  · intro p hp
    dsimp only [normalizeResume] at hp
    obtain ⟨hmem, hcond⟩ := List.mem_filter.mp hp
    unfold entriesOf at hmem
    split at hmem
    · next xs =>
      obtain ⟨x, hx, hxe⟩ := List.mem_map.mp hmem
      subst hxe
      exact ⟨jsTrim_idem _, ne_nil_of_isEmpty_false (by simpa using hcond),
        strListFiltered_ne, strListFiltered_ne⟩
    · simp at hmem
  · intro e he
    dsimp only [normalizeResume] at he
    obtain ⟨hmem, hcond⟩ := List.mem_filter.mp he
    unfold entriesOf at hmem
    split at hmem
    · next xs =>
      obtain ⟨x, hx, hxe⟩ := List.mem_map.mp hmem
      subst hxe
      exact ⟨jsTrim_idem _, ne_nil_of_isEmpty_false (by simpa using hcond),
        optField_ok _, optField_ok _, optField_ok _, strListFiltered_ne⟩
    · simp at hmem

theorem normalizeResume_roundtrip {n : TailoredResume} (hn : Normalized n) :
    normalizeResume (resumeToJson n) = n := by
  obtain ⟨hname, hnameNe, hloc, hemail, hphone, hlinks, hsum, hexp, hproj, hedu⟩ := hn
  show TailoredResume.mk
      (ResumeHeader.mk
        (if (jsTrim (jsStrOf (some (.str n.header.name)))).isEmpty then ("NAME").data
         else jsTrim (jsStrOf (some (.str n.header.name))))
        (optField (some (jopt n.header.location))) (optField (some (jopt n.header.email)))
        (optField (some (jopt n.header.phone)))
        (linksOf (some (.arr (n.header.links.map linkToJson)))))
      (jsTrim n.summary)
      (ResumeSkills.mk (strListOf (some (.arr (n.skills.languages.map .str))))
        (strListOf (some (.arr (n.skills.frameworks.map .str))))
        (strListOf (some (.arr (n.skills.tools.map .str))))
        (strListOf (some (.arr (n.skills.other.map .str)))))
      (((n.experience.map expToJson).map normalizeExperienceEntry).filter
        (fun e => !e.company.isEmpty && !e.title.isEmpty))
      (((n.projects.map projToJson).map normalizeProjectEntry).filter
        (fun p => !p.name.isEmpty))
      (((n.education.map eduToJson).map normalizeEducationEntry).filter
        (fun e => !e.school.isEmpty)) =
    TailoredResume.mk n.header n.summary n.skills n.experience n.projects n.education
  have hexpL : ((n.experience.map expToJson).map normalizeExperienceEntry).filter
      (fun e => !e.company.isEmpty && !e.title.isEmpty) = n.experience := by
    rw [List.map_map]
    have hm : ∀ e ∈ n.experience, (normalizeExperienceEntry ∘ expToJson) e = e :=
      fun e he => expEntry_roundtrip (hexp e he)
    rw [List.map_congr_left hm, List.map_id']
    apply List.filter_eq_self.mpr
    intro e he
    obtain ⟨_, hc, _, ht, _⟩ := hexp e he
    simp [isEmpty_false_of_ne hc, isEmpty_false_of_ne ht]
  have hprojL : ((n.projects.map projToJson).map normalizeProjectEntry).filter
      (fun p => !p.name.isEmpty) = n.projects := by
    rw [List.map_map]
    have hm : ∀ p ∈ n.projects, (normalizeProjectEntry ∘ projToJson) p = p :=
      fun p hp => projEntry_roundtrip (hproj p hp)
    rw [List.map_congr_left hm, List.map_id']
    apply List.filter_eq_self.mpr
    intro p hp
    obtain ⟨_, hc, _⟩ := hproj p hp
    simp [isEmpty_false_of_ne hc]
  have heduL : ((n.education.map eduToJson).map normalizeEducationEntry).filter
      (fun e => !e.school.isEmpty) = n.education := by
    rw [List.map_map]
    have hm : ∀ e ∈ n.education, (normalizeEducationEntry ∘ eduToJson) e = e :=
      fun e he => eduEntry_roundtrip (hedu e he)
    rw [List.map_congr_left hm, List.map_id']
    apply List.filter_eq_self.mpr
    intro e he
    obtain ⟨_, hc, _⟩ := hedu e he
    simp [isEmpty_false_of_ne hc]
  rw [jsStrOf_str, hname, isEmpty_false_of_ne hnameNe, if_neg (by simp),
    optField_jopt hloc, optField_jopt hemail, optField_jopt hphone,
    linksOf_roundtrip hlinks, hsum, strListOf_strs, strListOf_strs, strListOf_strs,
    strListOf_strs, hexpL, hprojL, heduL]

/-!
Lemmas about the keyword index: permutation, sortedness, stability,
key uniqueness, digit freeness.
-/

theorem insertDesc_perm (x : List Char × Nat) (l : List (List Char × Nat)) :
    (insertDesc x l).Perm (x :: l) := by
  induction l with
  | nil => simp [insertDesc]
  | cons y ys ih =>
    by_cases h : x.2 < y.2
    · simp only [insertDesc, if_pos h]
      exact (ih.cons y).trans (List.Perm.swap x y ys)
    · simp [insertDesc, if_neg h]

theorem sortDesc_perm (l : List (List Char × Nat)) : (sortDesc l).Perm l := by
  induction l with
  | nil => simp [sortDesc]
  | cons x xs ih => exact (insertDesc_perm x (sortDesc xs)).trans (ih.cons x)

theorem mem_insertDesc {x y : List Char × Nat} {l : List (List Char × Nat)} :
    y ∈ insertDesc x l ↔ y = x ∨ y ∈ l := by
  rw [(insertDesc_perm x l).mem_iff, List.mem_cons]

theorem insertDesc_sorted {x : List Char × Nat} {l : List (List Char × Nat)}
    (h : l.Pairwise (fun a b => b.2 ≤ a.2)) :
    (insertDesc x l).Pairwise (fun a b => b.2 ≤ a.2) := by
  induction l with
  | nil => simp [insertDesc]
  | cons y ys ih =>
    obtain ⟨hy, hys⟩ := List.pairwise_cons.mp h
    by_cases hlt : x.2 < y.2
    · simp only [insertDesc, if_pos hlt]
      refine List.pairwise_cons.mpr ⟨?_, ih hys⟩
      intro z hz
      rcases mem_insertDesc.mp hz with rfl | hz
      · exact Nat.le_of_lt hlt
      · exact hy z hz
    · simp only [insertDesc, if_neg hlt]
      refine List.pairwise_cons.mpr ⟨?_, h⟩
      intro z hz
      rcases List.mem_cons.mp hz with rfl | hz
      · exact Nat.le_of_not_lt hlt
      · exact Nat.le_trans (hy z hz) (Nat.le_of_not_lt hlt)

theorem sortDesc_sorted (l : List (List Char × Nat)) :
    (sortDesc l).Pairwise (fun a b => b.2 ≤ a.2) := by
  induction l with
  | nil => simp [sortDesc]
  | cons x xs ih => exact insertDesc_sorted ih

theorem insertDesc_filter_eq {x : List Char × Nat} {nf : Nat} (hx : x.2 = nf) :
    ∀ {l : List (List Char × Nat)}, l.Pairwise (fun a b => b.2 ≤ a.2) →
      (insertDesc x l).filter (fun p => p.2 == nf) =
        x :: l.filter (fun p => p.2 == nf)
  | [], _ => by simp [insertDesc, List.filter_cons, hx]
  | y :: ys, h => by
    obtain ⟨hy, hys⟩ := List.pairwise_cons.mp h
    by_cases hlt : x.2 < y.2
    · have hyne : (y.2 == nf) = false := by
        simp only [beq_eq_false_iff_ne, ne_eq]
        omega
      simp only [insertDesc, if_pos hlt, List.filter_cons, hyne]
      simp only [Bool.false_eq_true, if_false]
      exact insertDesc_filter_eq hx hys
    · simp only [insertDesc, if_neg hlt]
      rw [List.filter_cons, if_pos (by simp [hx])]

theorem insertDesc_filter_ne {x : List Char × Nat} {nf : Nat} (hx : ¬x.2 = nf) :
    ∀ l : List (List Char × Nat),
      (insertDesc x l).filter (fun p => p.2 == nf) = l.filter (fun p => p.2 == nf)
  | [] => by simp [insertDesc, List.filter_cons, hx]
  | y :: ys => by
    by_cases hlt : x.2 < y.2
    · simp only [insertDesc, if_pos hlt, List.filter_cons]
      rw [insertDesc_filter_ne hx ys]
    · simp [insertDesc, if_neg hlt, List.filter_cons, hx]

theorem sortDesc_filter (nf : Nat) :
    ∀ l : List (List Char × Nat),
      (sortDesc l).filter (fun p => p.2 == nf) = l.filter (fun p => p.2 == nf)
  | [] => rfl
  | x :: xs => by
    by_cases hx : x.2 = nf
    · rw [show sortDesc (x :: xs) = insertDesc x (sortDesc xs) from rfl,
        insertDesc_filter_eq hx (sortDesc_sorted xs), sortDesc_filter nf xs,
        List.filter_cons, if_pos (by simp [hx])]
    · rw [show sortDesc (x :: xs) = insertDesc x (sortDesc xs) from rfl,
        insertDesc_filter_ne hx (sortDesc xs), sortDesc_filter nf xs,
        List.filter_cons, if_neg (by simp [hx])]

theorem mem_bump_keys {m : List (List Char × Nat)} {k a : List Char} :
    a ∈ (bump m k).map Prod.fst → a ∈ m.map Prod.fst ∨ a = k := by
  induction m with
  | nil =>
    intro h
    right
    simpa [bump] using h
  | cons y ys ih =>
    obtain ⟨k', n⟩ := y
    intro h
    by_cases hk : k' = k
    · simp only [bump, if_pos hk, List.map_cons] at h ⊢
      exact .inl h
    · simp only [bump, if_neg hk, List.map_cons] at h ⊢
      rcases List.mem_cons.mp h with rfl | h2
      · exact .inl (List.mem_cons_self _ _)
      · rcases ih h2 with h3 | h3
        · exact .inl (List.mem_cons_of_mem _ h3)
        · exact .inr h3

theorem bump_keys_nodup {m : List (List Char × Nat)} {k : List Char}
    (h : (m.map Prod.fst).Nodup) : ((bump m k).map Prod.fst).Nodup := by
  induction m with
  | nil => simp [bump]
  | cons y ys ih =>
    obtain ⟨k', n⟩ := y
    simp only [List.map_cons, List.nodup_cons] at h
    obtain ⟨hy, hys⟩ := h
    by_cases hk : k' = k
    · simp only [bump, if_pos hk, List.map_cons, List.nodup_cons]
      exact ⟨hy, hys⟩
    · simp only [bump, if_neg hk, List.map_cons, List.nodup_cons]
      refine ⟨?_, ih hys⟩
      intro hmem
      rcases mem_bump_keys hmem with h' | h'
      · exact hy h'
      · exact hk h'

theorem synonym_no_digit {t : List Char}
    (h : t.any (fun c => '0' ≤ c && c ≤ '9') = false) :
    (synonym t).any (fun c => '0' ≤ c && c ≤ '9') = false := by
  unfold synonym
  split_ifs <;> first | decide | exact h

theorem mem_keys_processTok {freq : List (List Char × Nat)} {tok a : List Char} :
    a ∈ (processTok freq tok).map Prod.fst →
      a ∈ freq.map Prod.fst ∨
        (a = synonym (stripEdges tok) ∧
          (stripEdges tok).any (fun c => '0' ≤ c && c ≤ '9') = false) := by
  intro h
  unfold processTok acceptTok at h
  split_ifs at h with h1 h2 h3
  · exact .inl h
  · exact .inl h
  · exact .inl h
  · rcases mem_bump_keys h with h' | h'
    · exact .inl h'
    · exact .inr ⟨h', by simpa using h1⟩

theorem foldl_keys_digit_free :
    ∀ (tokens : List (List Char)) (freq : List (List Char × Nat)),
      (∀ a ∈ freq.map Prod.fst, a.any (fun c => '0' ≤ c && c ≤ '9') = false) →
      ∀ a ∈ (tokens.foldl processTok freq).map Prod.fst,
        a.any (fun c => '0' ≤ c && c ≤ '9') = false
  | [], freq, hf => hf
  | tok :: tokens, freq, hf => by
    refine foldl_keys_digit_free tokens (processTok freq tok) ?_
    intro a ha
    rcases mem_keys_processTok ha with h' | ⟨rfl, hdig⟩
    · exact hf a h'
    · exact synonym_no_digit hdig

theorem foldl_keys_nodup :
    ∀ (tokens : List (List Char)) (freq : List (List Char × Nat)),
      (freq.map Prod.fst).Nodup →
      ((tokens.foldl processTok freq).map Prod.fst).Nodup
  | [], freq, hf => hf
  | tok :: tokens, freq, hf => by
    refine foldl_keys_nodup tokens (processTok freq tok) ?_
    unfold processTok acceptTok
    split_ifs
    · exact hf
    · exact hf
    · exact hf
    · exact bump_keys_nodup hf

theorem keywordFreq_keys_nodup (job : List Char) :
    ((keywordFreq job).map Prod.fst).Nodup :=
  foldl_keys_nodup _ [] (by simp)

theorem keywordFreq_digit_free (job : List Char) :
    ∀ a ∈ (keywordFreq job).map Prod.fst,
      a.any (fun c => '0' ≤ c && c ≤ '9') = false :=
  foldl_keys_digit_free _ [] (by simp)

theorem extractJobKeywords_sub_keys {job : List Char} {k : List Char}
    (h : k ∈ extractJobKeywords job) : k ∈ (keywordFreq job).map Prod.fst := by
  unfold extractJobKeywords at h
  have h1 := List.mem_of_mem_take h
  exact ((sortDesc_perm (keywordFreq job)).map Prod.fst).mem_iff.mp h1

theorem extractJobKeywords_nodup (job : List Char) : (extractJobKeywords job).Nodup := by
  unfold extractJobKeywords
  refine (List.take_sublist _ _).nodup ?_
  exact ((sortDesc_perm (keywordFreq job)).map Prod.fst).nodup_iff.mpr
    (keywordFreq_keys_nodup job)

/-!
Claim theorems.
-/

theorem clamp_length_le (s : List Char) : (clamp s).length ≤ 35000 := by
  unfold clamp
  by_cases h : 35000 < (jsTrim (s.filter (fun c => c ≠ '\x00'))).length
  · simp only [h, if_true]
    simp
  · simp only [h, if_false]
    omega

/-- C1.  For every job text and resume text, the match analysis marks as
present exactly the extracted keywords occurring as substrings of the
lower-cased resume text, and the score is the rounded integer percentage
`round(100 * present / max 1 keywords)`; with no keywords the score is 0; on
the keyword list react, node.js, sql with a resume containing react and sql
only, the score is 67 and node.js is the one missing keyword. -/
theorem analyzeAts_score_spec (jobText resumeText : List Char) :
    (analyzeAts jobText resumeText).present =
      (extractJobKeywords jobText).filter (fun k => includes (resumeText.map Char.toLower) k)
    ∧ (analyzeAts jobText resumeText).missing =
      (extractJobKeywords jobText).filter (fun k => !includes (resumeText.map Char.toLower) k)
    ∧ (analyzeAts jobText resumeText).score =
      (200 * (analyzeAts jobText resumeText).present.length
        + max 1 (extractJobKeywords jobText).length)
        / (2 * max 1 (extractJobKeywords jobText).length)
    ∧ ((extractJobKeywords jobText).length = 0 → (analyzeAts jobText resumeText).score = 0)
    ∧ analyzeAts (("react node.js sql").data) (("I know React and SQL.").data) =
        { score := 67,
          keywords := [("react").data, ("node.js").data, ("sql").data],
          present := [("react").data, ("sql").data],
          missing := [("node.js").data] } := by
  have htot : (if (extractJobKeywords jobText).length = 0 then 1
      else (extractJobKeywords jobText).length) = max 1 (extractJobKeywords jobText).length := by
    rcases Nat.eq_zero_or_pos (extractJobKeywords jobText).length with h | h
    · simp [h]
    · rw [if_neg (Nat.pos_iff_ne_zero.mp h), Nat.max_eq_right h]
  have hscore : (analyzeAts jobText resumeText).score =
      (200 * (analyzeAts jobText resumeText).present.length +
        (if (extractJobKeywords jobText).length = 0 then 1
         else (extractJobKeywords jobText).length)) /
      (2 * (if (extractJobKeywords jobText).length = 0 then 1
         else (extractJobKeywords jobText).length)) := rfl
  refine ⟨rfl, rfl, by rw [hscore, htot], ?_, by decide⟩
  intro h
  have hk : extractJobKeywords jobText = [] := List.length_eq_zero.mp h
  have hp : (analyzeAts jobText resumeText).present = [] := by
    show (extractJobKeywords jobText).filter _ = []
    rw [hk]
    rfl
  rw [hscore, hp, h]
  simp

theorem analyzeAts_score_spec_witness :
    (extractJobKeywords []).length = 0 ∧ (analyzeAts [] []).score = 0 :=
  ⟨by decide, (analyzeAts_score_spec [] []).2.2.2.1 (by decide)⟩

/-- C8.  No extracted keyword contains an ASCII digit: the digit filter runs
before counting, and the synonym map introduces none; in particular neither
python3 nor aws2024 is extracted from the sample digit-laden job text. -/
theorem extractJobKeywords_no_digits (jobText : List Char) :
    (∀ k ∈ extractJobKeywords jobText, ∀ c ∈ k, ¬('0' ≤ c ∧ c ≤ '9'))
    ∧ ¬(("python3").data ∈
        extractJobKeywords (("Requires 5 years of Python3 and AWS2024 experience").data))
    ∧ ¬(("aws2024").data ∈
        extractJobKeywords (("Requires 5 years of Python3 and AWS2024 experience").data)) := by
  refine ⟨?_, by decide, by decide⟩
  intro k hk c hc hdig
  have h1 := keywordFreq_digit_free jobText k (extractJobKeywords_sub_keys hk)
  have h2 : k.any (fun c => '0' ≤ c && c ≤ '9') = true :=
    List.any_eq_true.mpr ⟨c, hc, by simp [hdig.1, hdig.2]⟩
  rw [h1] at h2
  exact Bool.false_ne_true h2

theorem extractJobKeywords_no_digits_witness :
    (("react").data ∈ extractJobKeywords (("react react").data))
    ∧ ('r' ∈ ("react").data)
    ∧ ¬('0' ≤ 'r' ∧ 'r' ≤ '9') :=
  ⟨by decide, by decide,
    (extractJobKeywords_no_digits (("react react").data)).1 (("react").data) (by decide) 'r'
      (by decide)⟩

/-- C9.  The extracted keyword list is the frequency list sorted by descending
count and cut at 35: it is duplicate free, at most 35 long, the sorted
frequency list is descending, and entries of any fixed frequency keep the
first-seen insertion order of the frequency list (stability). -/
theorem extractJobKeywords_ranking (jobText : List Char) :
    extractJobKeywords jobText = ((sortDesc (keywordFreq jobText)).map Prod.fst).take 35
    ∧ (extractJobKeywords jobText).Nodup
    ∧ (extractJobKeywords jobText).length ≤ 35
    ∧ (sortDesc (keywordFreq jobText)).Pairwise (fun a b => b.2 ≤ a.2)
    ∧ ∀ f : Nat, (sortDesc (keywordFreq jobText)).filter (fun p => p.2 == f) =
        (keywordFreq jobText).filter (fun p => p.2 == f) :=
  ⟨rfl, extractJobKeywords_nodup _,
    List.length_take_le 35 ((sortDesc (keywordFreq jobText)).map Prod.fst),
    sortDesc_sorted _, fun f => sortDesc_filter f _⟩

/-- C2 counterexample.  On a raw model output that parses to an object with a
resume field but no cover_letter field, a balanced object is found and the
object does not lack both fields, yet the operation still fails with the raw
payload — refuting the claimed failure condition (lacking both fields). -/
theorem tailorParse_missing_cover_cex :
    (extractFirstJsonObject (("\x7b\"resume\": \x7b\"x\": \"y\"\x7d\x7d").data)).isSome = true
    ∧ truthyOpt (jfield (coerceParsed (("\x7b\"resume\": \x7b\"x\": \"y\"\x7d\x7d").data))
        ("resume")) = true
    ∧ errPayload (tailorParsedOrError (("\x7b\"resume\": \x7b\"x\": \"y\"\x7d\x7d").data)) =
        some (("\x7b\"resume\": \x7b\"x\": \"y\"\x7d\x7d").data) :=
  ⟨by decide, by decide, by decide⟩

/-- C2 (amended).  The coercion stage tries a direct parse and falls back to
the extracted first balanced object; the operation fails exactly when the
coercion yields no value or the value lacks a truthy resume field or a truthy
cover_letter field, and every failure carries the first 4000 characters of
the raw output; fenced output with trailing prose still extracts and parses
to a success. -/
theorem tailorParse_failure_spec (content : List Char) :
    (isOkE (tailorParsedOrError content) = false ↔
      coerceParsed content = none ∨
        ∃ j, coerceParsed content = some j ∧
          (truthyOpt (jget j (("resume").data)) = false ∨
           truthyOpt (jget j (("cover_letter").data)) = false))
    ∧ (isOkE (tailorParsedOrError content) = false →
        errPayload (tailorParsedOrError content) = some (content.take 4000))
    ∧ extractFirstJsonObject
        (("```json\n\x7b\"resume\": \x7b\"x\": \"y\"\x7d, \"cover_letter\": \"hi\"\x7d\n```\nSome trailing prose.").data) =
        some (("\x7b\"resume\": \x7b\"x\": \"y\"\x7d, \"cover_letter\": \"hi\"\x7d").data)
    ∧ isOkE (tailorParsedOrError
        (("```json\n\x7b\"resume\": \x7b\"x\": \"y\"\x7d, \"cover_letter\": \"hi\"\x7d\n```\nSome trailing prose.").data)) = true := by
  refine ⟨?_, ?_, by decide, by decide⟩
  · unfold tailorParsedOrError
    cases h : coerceParsed content with
    | none => simp [isOkE]
    | some j =>
      by_cases hb : truthyOpt (jget j (("resume").data)) &&
          truthyOpt (jget j (("cover_letter").data))
      · rw [Bool.and_eq_true] at hb
        obtain ⟨h1, h2⟩ := hb
        dsimp only
        rw [if_pos (by rw [h1, h2]; rfl)]
        simp [isOkE, h1, h2]
      · dsimp only
        rw [if_neg hb]
        refine iff_of_true rfl (.inr ⟨j, rfl, ?_⟩)
        cases hres : truthyOpt (jget j (("resume").data)) with
        | false => exact .inl rfl
        | true =>
          cases hcov : truthyOpt (jget j (("cover_letter").data)) with
          | false => exact .inr rfl
          | true => exact absurd (by rw [hres, hcov]; rfl) hb
  · unfold tailorParsedOrError
    cases h : coerceParsed content with
    | none => intro _; rfl
    | some j =>
      by_cases hb : truthyOpt (jget j (("resume").data)) &&
          truthyOpt (jget j (("cover_letter").data))
      · dsimp only
        rw [if_pos hb]
        intro hfalse
        exact absurd hfalse (by simp [isOkE])
      · dsimp only
        rw [if_neg hb]
        intro _
        rfl

theorem tailorParse_failure_spec_witness :
    isOkE (tailorParsedOrError (("not json at all").data)) = false
    ∧ errPayload (tailorParsedOrError (("not json at all").data)) =
        some (("not json at all").data) :=
  ⟨by decide, (tailorParse_failure_spec (("not json at all").data)).2.1 (by decide)⟩

/-- C3.  The normalizer is total over arbitrary JSON input and always yields a
fully-shaped record (the record type itself keeps every list field present):
the name is never empty, it falls back to the placeholder when the input name
trims to nothing, and the null input yields the all-default record. -/
theorem normalizeResume_total_spec (r : Json) :
    (normalizeResume r).header.name ≠ []
    ∧ (jsTrim (jsStrOf (jfield (jfield (some r) ("header")) ("name"))) = [] →
        (normalizeResume r).header.name = ("NAME").data)
    ∧ normalizeResume .null =
        { header := { name := ("NAME").data, location := none, email := none, phone := none,
                      links := [] },
          summary := [],
          skills := { languages := [], frameworks := [], tools := [], other := [] },
          experience := [], projects := [], education := [] } := by
  refine ⟨(normalizeResume_normalized r).2.1, ?_, by decide⟩
  intro h
  show (if (jsTrim (jsStrOf (jfield (jfield (some r) ("header")) ("name")))).isEmpty
      then ("NAME").data
      else jsTrim (jsStrOf (jfield (jfield (some r) ("header")) ("name")))) = ("NAME").data
  rw [h]
  rfl

theorem normalizeResume_total_spec_witness :
    jsTrim (jsStrOf (jfield (jfield (some Json.null) ("header")) ("name"))) = []
    ∧ (normalizeResume Json.null).header.name = ("NAME").data :=
  ⟨by decide, (normalizeResume_total_spec Json.null).2.1 (by decide)⟩

/-- C4.  The normalizer's output sections are exactly the coerced entries with
the required-field filters applied: every surviving experience entry has a
nonempty company and title, every project a nonempty name, every education
entry a nonempty school; an experience entry with only a title is dropped and
one with both company and title is kept. -/
theorem normalizeResume_drop_rules (r : Json) :
    (normalizeResume r).experience =
      (entriesOf (jfield (some r) ("experience")) normalizeExperienceEntry).filter
        (fun e => !e.company.isEmpty && !e.title.isEmpty)
    ∧ (normalizeResume r).projects =
      (entriesOf (jfield (some r) ("projects")) normalizeProjectEntry).filter
        (fun p => !p.name.isEmpty)
    ∧ (normalizeResume r).education =
      (entriesOf (jfield (some r) ("education")) normalizeEducationEntry).filter
        (fun e => !e.school.isEmpty)
    ∧ (∀ e ∈ (normalizeResume r).experience, e.company ≠ [] ∧ e.title ≠ [])
    ∧ (∀ p ∈ (normalizeResume r).projects, p.name ≠ [])
    ∧ (∀ e ∈ (normalizeResume r).education, e.school ≠ [])
    ∧ (normalizeResume (.obj [(("experience").data,
        .arr [.obj [(("title").data, .str (("X").data))]])])).experience = []
    ∧ (normalizeResume (.obj [(("experience").data,
        .arr [.obj [(("company").data, .str (("C").data)),
                    (("title").data, .str (("T").data))]])])).experience =
        [{ company := ("C").data, title := ("T").data, location := none, start := none,
           «end» := none, bullets := [] }] := by
  refine ⟨rfl, rfl, rfl, ?_, ?_, ?_, by decide, by decide⟩
  · intro e he
    obtain ⟨_, h1, _, h2, _⟩ := (normalizeResume_normalized r).2.2.2.2.2.2.2.1 e he
    exact ⟨h1, h2⟩
  · intro p hp
    obtain ⟨_, h1, _⟩ := (normalizeResume_normalized r).2.2.2.2.2.2.2.2.1 p hp
    exact h1
  · intro e he
    obtain ⟨_, h1, _⟩ := (normalizeResume_normalized r).2.2.2.2.2.2.2.2.2 e he
    exact h1

theorem normalizeResume_drop_rules_witness :
    ({ company := ("C").data, title := ("T").data, location := none, start := none,
       «end» := none, bullets := [] } : ResumeExperience).company ≠ []
    ∧ ({ company := ("C").data, title := ("T").data, location := none,
         start := none, «end» := none, bullets := [] } : ResumeExperience).title ≠ [] :=
  (normalizeResume_drop_rules (.obj [(("experience").data,
      .arr [.obj [(("company").data, .str (("C").data)),
                  (("title").data, .str (("T").data))]])])).2.2.2.1
    { company := ("C").data, title := ("T").data, location := none, start := none,
      «end» := none, bullets := [] } (by decide)

/-- C5.  The normalizer is idempotent: re-normalizing the object image of its
own output reproduces that output exactly. -/
theorem normalizeResume_idempotent (r : Json) :
    normalizeResume (resumeToJson (normalizeResume r)) = normalizeResume r :=
  normalizeResume_roundtrip (normalizeResume_normalized r)

/-- C6 counterexample.  Elements of the skills category lists are not trimmed
by the normalizer: a languages entry with surrounding spaces survives
verbatim, so not every string field of the output is trimmed. -/
theorem normalizeResume_skills_untrimmed_cex :
    ¬ ∀ s ∈ (normalizeResume (.obj [(("skills").data,
        .obj [(("languages").data, .arr [.str (("  x  ").data)])])])).skills.languages,
      jsTrim s = s := by
  decide

/-- C6 (amended).  Every scalar string field of the normalized record is
trimmed, present optional scalars are nonempty (empty-after-trim ones are
stored unset, while summary stays as a possibly empty string), and bullet,
tech and detail list elements are nonempty; elements of skills category,
bullet, tech and detail lists are string-coerced but not trimmed, as the
surviving untrimmed languages entry shows. -/
theorem normalizeResume_trimming (r : Json) :
    Normalized (normalizeResume r)
    ∧ (normalizeResume (.obj [(("skills").data,
        .obj [(("languages").data, .arr [.str (("  x  ").data)])])])).skills.languages =
      [("  x  ").data] :=
  ⟨normalizeResume_normalized r, by decide⟩

theorem normalizeResume_trimming_witness :
    jsTrim (normalizeResume Json.null).header.name = (normalizeResume Json.null).header.name :=
  (normalizeResume_trimming Json.null).1.1

/-- C7.  The formatter is a pure function (formatting twice gives identical
text), and the empty resume renders the full placeholder template: the NAME
line and every section wrapped in its header with the em-dash placeholder
body, trimmed with one trailing newline. -/
theorem formatResumeATS_deterministic_template :
    (∀ resume : TailoredResume, formatResumeATS resume = formatResumeATS resume)
    ∧ formatResumeATS emptyResume =
      ("NAME\n\n-- SUMMARY --\n—\n\n-- SKILLS --\n—\n\n-- EXPERIENCE --\n—\n\n-- PROJECTS --\n—\n\n-- EDUCATION --\n—\n").data :=
  ⟨fun _ => rfl, by decide⟩

/-- C10.  Every text of a successful tailor response passes through `clamp`,
so the original resume text, the canonical ATS text and the cover letter are
each at most 35000 characters long. -/
theorem tailorSuccessTexts_bounded (originalRaw : List Char) (resumeVal : Json)
    (coverVal : Option Json) :
    (tailorSuccessTexts originalRaw resumeVal coverVal).1.length ≤ 35000
    ∧ (tailorSuccessTexts originalRaw resumeVal coverVal).2.1.length ≤ 35000
    ∧ (tailorSuccessTexts originalRaw resumeVal coverVal).2.2.length ≤ 35000 := by
  simp only [tailorSuccessTexts]
  exact ⟨clamp_length_le _, clamp_length_le _, clamp_length_le _⟩
